import Mathlib

/-
Verification of the Checkmk agent-output parser (cmk/base/checkers/agent.py)
against its natural-language specification.

The Python source is shallowly embedded: lines of agent output are lists of
bytes (`List Nat`, each < 256 in practice), decoded text is modelled at byte
level (UTF-8 decoding is the identity on the ASCII data all claims use, and
the `latin-1` fallback makes decoding total), Python `dict`s are association
lists with insertion order, and the aliasing of Python `list` payloads is made
explicit through a heap of payload cells addressed by index.  Functions that
can raise return `Option` / `Except`; an exception caught by the per-line
`except` handlers of the state machine demotes the parser to the NOOP state
while keeping all mutations already performed on the shared accumulator.
-/

set_option autoImplicit false

namespace Checkmk

/-- One line of raw agent output, as a list of byte values. -/
abbrev Line := List Nat

/-- Decoded text, modelled at byte level. -/
abbrev Str := List Nat

/-- A row of a section payload: the fields produced by splitting one line. -/
abbrev Row := List Str

/-- A section payload: the ordered rows appended so far. -/
abbrev Payload := List Row

/-- ASCII bytes of a Lean string literal (all literals used are ASCII). -/
def asciiOf (s : String) : List Nat := s.data.map Char.toNat

/-- ASCII whitespace stripped by Python `bytes.strip()` / `str.strip()`:
tab, LF, VT, FF, CR, space. -/
def isSpaceB (b : Nat) : Bool := b = 9 || b = 10 || b = 11 || b = 12 || b = 13 || b = 32

/-- Python `line.strip()`: drop ASCII whitespace from both ends. -/
def stripB (l : List Nat) : List Nat :=
  ((l.dropWhile isSpaceB).reverse.dropWhile isSpaceB).reverse

/-- Python `line.rstrip(b"\n")`: drop trailing newline bytes. -/
def rstripNl (l : List Nat) : List Nat :=
  (l.reverse.dropWhile (fun b => b = 10)).reverse

/-- Python `s.split(sep)` for a single one-byte separator: exact splitting,
empty fields preserved, result always non-empty. -/
def splitOnByte (sep : Nat) : List Nat → List (List Nat)
  | [] => [[]]
  | b :: t =>
    match splitOnByte sep t with
    | [] => [[]]
    | cur :: rest => if b = sep then [] :: cur :: rest else (b :: cur) :: rest

/-- Helper for Python `s.split()` (no argument): accumulate the current word. -/
def splitWSAux : List Nat → List Nat → List (List Nat)
  | cur, [] => if cur.isEmpty then [] else [cur.reverse]
  | cur, b :: t =>
    if isSpaceB b then
      if cur.isEmpty then splitWSAux [] t else cur.reverse :: splitWSAux [] t
    else splitWSAux (b :: cur) t

/-- Python `s.split()` (no argument): split on runs of whitespace, discarding
leading and trailing whitespace; never produces empty fields. -/
def splitWS (l : List Nat) : List (List Nat) := splitWSAux [] l

/-- Python `s.split(sep, 1)` restricted to the first component pair:
`none` when the separator byte does not occur. -/
def splitOnce (sep : Nat) : List Nat → Option (List Nat × List Nat)
  | [] => none
  | b :: t =>
    if b = sep then some ([], t)
    else (splitOnce sep t).map (fun p => (b :: p.1, p.2))

/-- Python substring test `pat in l` for the non-empty patterns used here. -/
def hasSub (pat : List Nat) : List Nat → Bool
  | [] => pat.isEmpty
  | b :: t => pat.isPrefixOf (b :: t) || hasSub pat t

/-- Python slice `l[3:-3]`. -/
def slice3 (l : List Nat) : List Nat := (l.drop 3).take (l.length - 6)

/-- Python slice `l[4:-4]`. -/
def slice4 (l : List Nat) : List Nat := (l.drop 4).take (l.length - 8)

/-- Decimal digits (ASCII) of a natural number, as bytes. -/
def natDigits (n : Nat) : List Nat := (Nat.toDigits 10 n).map Char.toNat

/-- Python `b"%d" % i`: decimal rendering of an integer, as bytes. -/
def intDigits : Int → List Nat
  | Int.ofNat n => natDigits n
  | Int.negSucc m => 45 :: natDigits (m + 1)

/-- Helper for `parseNatDigits`: `none` while no digit has been read. -/
def parseNatAux : Option Nat → List Nat → Option Nat
  | acc, [] => acc
  | acc, b :: t =>
    if 48 ≤ b ∧ b ≤ 57 then parseNatAux (some ((acc.getD 0) * 10 + (b - 48))) t
    else none

/-- Parse a non-empty all-digit byte string as a natural number. -/
def parseNatDigits (s : List Nat) : Option Nat := parseNatAux none s

/-- Python `int(s)`, modelled for canonical numerals: an optional minus sign
followed by at least one decimal digit; anything else raises `ValueError`,
modelled as `none`. -/
def pyInt (s : Str) : Option Int :=
  match s with
  | 45 :: rest => (parseNatDigits rest).map (fun n => -(n : Int))
  | _ => (parseNatDigits s).map (fun n => (n : Int))

/-- First-match lookup in an association list (Python `dict` access on the
duplicate-free dictionaries built below). -/
def alookup {α : Type} (k : Str) : List (Str × α) → Option α
  | [] => none
  | (a, b) :: t => if a = k then some b else alookup k t

/-- Python `dict` assignment `d[k] = v`: replace the value of an existing key
in place, else append the new binding (insertion order preserved). -/
def upd {α : Type} (k : Str) (v : α) : List (Str × α) → List (Str × α)
  | [] => [(k, v)]
  | (a, b) :: t => if a = k then (k, v) :: t else (a, b) :: upd k v t

/-- Keys of an association list, in order. -/
def keys {α : Type} (m : List (Str × α)) : List Str := m.map Prod.fst

/-! ## Header recognition (AgentParserSectionHeader / framing predicates) -/

/-- `PiggybackSectionParser.is_footer`: the line, stripped, is `<<<<>>>>`. -/
def isPiggyFooter (l : Line) : Bool :=
  stripB l = [60, 60, 60, 60, 62, 62, 62, 62]

/-- `PiggybackSectionParser.is_header`: the stripped line starts with `<<<<`,
ends with `>>>>`, and is not the piggyback footer. -/
def isPiggyHeader (l : Line) : Bool :=
  List.isPrefixOf [60, 60, 60, 60] (stripB l) &&
  List.isSuffixOf [62, 62, 62, 62] (stripB l) &&
  !(isPiggyFooter l)

/-- `HostSectionParser.is_footer`: the line, stripped, is `<<<>>>`. -/
def isHostFooter (l : Line) : Bool :=
  stripB l = [60, 60, 60, 62, 62, 62]

/-- `HostSectionParser.is_header`: the stripped line starts with `<<<`, ends
with `>>>`, and is neither a host footer nor a piggyback header or footer
(the inner predicates re-strip, exactly as in the source). -/
def isHostHeader (l : Line) : Bool :=
  List.isPrefixOf [60, 60, 60] (stripB l) &&
  List.isSuffixOf [62, 62, 62] (stripB l) &&
  !(isHostFooter (stripB l)) &&
  !(isPiggyHeader (stripB l)) &&
  !(isPiggyFooter (stripB l))

/-- A parsed section header: `(name, options)` as built by
`AgentParserSectionHeader.from_headerline`. -/
structure SectionHeader where
  name : Str
  options : List (Str × Str)
deriving DecidableEq

/-- Modelled from the spec: `SectionName` (cmk.utils.type_defs, not under
src/) is non-empty and restricted to identifier characters; its constructor
raises on anything else. -/
def isSectionNameChar (b : Nat) : Bool :=
  (48 ≤ b && b ≤ 57) || (65 ≤ b && b ≤ 90) || (97 ≤ b && b ≤ 122) || b = 95

/-- Modelled from the spec: validity check of the `SectionName` constructor. -/
def validSectionName (s : Str) : Bool := !s.isEmpty && s.all isSectionNameChar

/-- The option parser of `from_headerline`: tokens without `(` are skipped;
a token with `(` is split at the first `(` and the value must end in `)`
(an empty value raises `IndexError`, a wrong last character fails the
`assert`) — any failure rejects the whole header (`none`). -/
def parseOptions : List (List Nat) → Option (List (List Nat × List Nat))
  | [] => some []
  | tok :: rest =>
    match splitOnce 40 tok with
    | none => parseOptions rest
    | some (n, v) =>
      match v.reverse with
      | [] => none
      | c :: _ =>
        if c = 41 then (parseOptions rest).map (fun ps => (n, v.dropLast) :: ps)
        else none

/-- `AgentParserSectionHeader.from_headerline`: reject non-headers, slice the
body `line[3:-3]` (unstripped, as in the source), split on `:`, validate the
section name, parse the option tokens and build the options dict. -/
def fromHeaderline (l : Line) : Option SectionHeader :=
  if isHostHeader l then
    match splitOnByte 58 (slice3 l) with
    | [] => none
    | name :: optToks =>
      if validSectionName name then
        (parseOptions optToks).map
          (fun ps => ⟨name, ps.foldl (fun d p => upd p.1 p.2 d) []⟩)
      else none
  else none

/-- `AgentParserSectionHeader.persist`: absent key yields `none`; a present
key whose value is not an integer raises (`Except.error`). -/
def SectionHeader.persistOpt (h : SectionHeader) : Except Unit (Option Int) :=
  match alookup (asciiOf "persist") h.options with
  | none => Except.ok none
  | some v =>
    match pyInt v with
    | none => Except.error ()
    | some n => Except.ok (some n)

/-- `AgentParserSectionHeader.cached`: absent key yields the empty tuple; a
present key is split on `,` and every part must parse as an integer. -/
def SectionHeader.cachedOpt (h : SectionHeader) : Except Unit (List Int) :=
  match alookup (asciiOf "cached") h.options with
  | none => Except.ok []
  | some v =>
    match (splitOnByte 44 v).mapM pyInt with
    | none => Except.error ()
    | some ts => Except.ok ts

/-- `AgentParserSectionHeader.separator`: `chr(int(value))`; parse failure or
a code point outside `chr`'s range raises. -/
def SectionHeader.sepOpt (h : SectionHeader) : Except Unit (Option Nat) :=
  match alookup (asciiOf "sep") h.options with
  | none => Except.ok none
  | some v =>
    match pyInt v with
    | none => Except.error ()
    | some n =>
      if 0 ≤ n ∧ n < 1114112 then Except.ok (some n.toNat) else Except.error ()

/-- `AgentParserSectionHeader.nostrip`: the key is present. -/
def SectionHeader.nostripOpt (h : SectionHeader) : Bool :=
  (alookup (asciiOf "nostrip") h.options).isSome

/-! ## Piggyback host names -/

/-- The allowed host-name alphabet `REGEX_HOST_NAME_CHARS = "-0-9a-zA-Z_."`
(cmk.utils.regex, an external collaborator of the parser). -/
def isHostNameChar (b : Nat) : Bool :=
  b = 45 || (48 ≤ b && b ≤ 57) || (65 ≤ b && b ≤ 90) ||
  (97 ≤ b && b ≤ 122) || b = 95 || b = 46

/-- `regex("[^" + REGEX_HOST_NAME_CHARS + "]").sub("_", s)`: every byte
outside the allowed alphabet is replaced by an underscore. -/
def sanitizeHost (s : Str) : Str :=
  s.map (fun b => if isHostNameChar b then b else 95)

/-- `PiggybackSectionParser.parse_header`: slice `line.strip()[4:-4]`, assert
it non-empty, translate it (`config.translate_piggyback_host`, an external
collaborator passed in as `translate`), then sanitize.  `none` models the
failing assert. -/
def parsePiggyHeader (translate : Str → Str) (l : Line) : Option Str :=
  let body := slice4 (stripB l)
  if body.isEmpty then none else some (sanitizeHost (translate body))

/-- `PiggybackSectionParser._add_cached_info`: when the line contains neither
the `:cached(` nor the `:persist(` substring, rewrite it to embed
`cached(cached_at,cache_age)`; otherwise return it unchanged. -/
def addCachedInfo (orig : Line) (cachedAt cacheAge : Int) : Line :=
  if hasSub (asciiOf ":cached(") orig || hasSub (asciiOf ":persist(") orig then orig
  else
    [60, 60, 60] ++ slice3 orig ++ asciiOf ":cached(" ++ intDigits cachedAt ++
      [44] ++ intDigits cacheAge ++ [41, 62, 62, 62]

/-! ## The framing state machine -/

/-- The three states of the framing state machine: `NOOPParser`,
`HostSectionParser` (holding its section header) and
`PiggybackSectionParser` (holding the sanitized target host). -/
inductive ParserMode where
  | noop : ParserMode
  | host : SectionHeader → ParserMode
  | piggy : Str → ParserMode
deriving DecidableEq

/-- The mutable data shared by all parser states: the `HostSections`
accumulator plus the persisted-sections buffer.  Section payloads live in
`heap`, a list of payload cells addressed by index; `sections` and
`persisted` store cell indices, which makes the aliasing of Python list
objects explicit. -/
structure ParserST where
  mode : ParserMode
  sections : List (Str × Nat)
  heap : List Payload
  piggybacked : List (Str × List Line)
  cacheInfo : List (Str × (Int × Int))
  persisted : List (Str × (Int × Int × Nat))
deriving DecidableEq

/-- The per-parse context: the receiving host's name, the external
translation hook (with the receiving host baked in), and the
`cached_at` / `cache_age` pair fixed by the orchestrator. -/
structure Ctx where
  hostname : Str
  translate : Str → Str
  cachedAt : Int
  cacheAge : Int

/-- `host_sections.sections.setdefault(name, [])` plus the cell index of the
(existing or fresh) payload list object. -/
def heapRef (s : ParserST) (name : Str) : ParserST × Nat :=
  match alookup name s.sections with
  | some r => (s, r)
  | none =>
    ({ s with
        sections := s.sections ++ [(name, s.heap.length)],
        heap := s.heap ++ [[]] }, s.heap.length)

/-- The `cached` stage of `HostSectionParser.__init__`: a raising option
value (`Except.error`) or a single-element tuple (the `cache_times[1]` access
raises `IndexError`) fails the construction; a two-element tuple overwrites
the cache info.  The `Bool` is `false` when the construction raises. -/
def cachedStage (s2 : ParserST) (h : SectionHeader) : ParserST × Bool :=
  match h.cachedOpt with
  | Except.error _ => (s2, false)
  | Except.ok [] => (s2, true)
  | Except.ok [_] => (s2, false)
  | Except.ok (t0 :: t1 :: _) =>
    ({ s2 with cacheInfo := upd h.name (t0, t1) s2.cacheInfo }, true)

/-- The body of `HostSectionParser.__init__`: the `setdefault` (`heapRef`),
then staging of the persisted entry and cache info for a `persist` option,
then the `cached` stage.  The `Bool` is `false` when an option value raises,
in which case the mutations already performed are kept (the accumulator is
shared) but the construction fails. -/
def enterHostCore (cachedAt : Int) (s : ParserST) (h : SectionHeader) :
    ParserST × Bool :=
  match h.persistOpt with
  | Except.error _ => ((heapRef s h.name).1, false)
  | Except.ok none => cachedStage (heapRef s h.name).1 h
  | Except.ok (some u) =>
    cachedStage
      { (heapRef s h.name).1 with
          cacheInfo :=
            upd h.name (cachedAt, u - cachedAt) (heapRef s h.name).1.cacheInfo,
          persisted :=
            upd h.name (cachedAt, u, (heapRef s h.name).2)
              (heapRef s h.name).1.persisted } h

/-- Transition into the host-section state (`to_host_section_parser`): when
`HostSectionParser.__init__` raises, the caller's handler demotes to NOOP,
keeping the mutations already performed. -/
def enterHost (cachedAt : Int) (s : ParserST) (h : SectionHeader) : ParserST :=
  match enterHostCore cachedAt s h with
  | (s1, true) => { s1 with mode := ParserMode.host h }
  | (s1, false) => { s1 with mode := ParserMode.noop }

/-- `piggybacked_raw_data.setdefault(target, []).append(line)`. -/
def appendPB (m : List (Str × List Line)) (k : Str) (v : Line) :
    List (Str × List Line) :=
  match alookup k m with
  | some ls => upd k (ls ++ [v]) m
  | none => m ++ [(k, [v])]

/-- Split one decoded content line into a row: with a `sep` option the split
is exact on that character, else Python whitespace splitting. -/
def splitRow (osep : Option Nat) (l : List Nat) : List (List Nat) :=
  match osep with
  | none => splitWS l
  | some c => splitOnByte c l

/-- One transition of the framing state machine: the `__call__` methods of
`NOOPParser`, `PiggybackSectionParser` and `HostSectionParser`.  Blank lines
never change state; any exception while handling a line demotes to NOOP. -/
def step (ctx : Ctx) (s : ParserST) (line : Line) : ParserST :=
  if (stripB line).isEmpty then s
  else
    match s.mode with
    | ParserMode.noop =>
      if isPiggyHeader line then
        match parsePiggyHeader ctx.translate line with
        | none => { s with mode := ParserMode.noop }
        | some t => if t = ctx.hostname then s else { s with mode := ParserMode.piggy t }
      else if isHostHeader line then
        match fromHeaderline line with
        | none => { s with mode := ParserMode.noop }
        | some h => enterHost ctx.cachedAt s h
      else s
    | ParserMode.piggy t =>
      if isPiggyFooter line then { s with mode := ParserMode.noop }
      else if isPiggyHeader line then
        match parsePiggyHeader ctx.translate line with
        | none => { s with mode := ParserMode.noop }
        | some t2 =>
          if t2 = ctx.hostname then { s with mode := ParserMode.noop }
          else { s with mode := ParserMode.piggy t2 }
      else
        { s with piggybacked := (appendPB s.piggybacked t
            (if isHostHeader line then
              addCachedInfo (stripB line) ctx.cachedAt ctx.cacheAge
             else line)) }
    | ParserMode.host h =>
      if isPiggyHeader line then
        match parsePiggyHeader ctx.translate line with
        | none => { s with mode := ParserMode.noop }
        | some t => if t = ctx.hostname then s else { s with mode := ParserMode.piggy t }
      else if isHostFooter line then { s with mode := ParserMode.noop }
      else if isHostHeader line then
        match fromHeaderline line with
        | none => { s with mode := ParserMode.noop }
        | some h2 => enterHost ctx.cachedAt s h2
      else
        match h.sepOpt with
        | Except.error _ => { s with mode := ParserMode.noop }
        | Except.ok osep =>
          match alookup h.name s.sections with
          | none => { s with mode := ParserMode.noop }
          | some r =>
            { s with heap := s.heap.set r ((s.heap.getD r []) ++
                [splitRow osep (if h.nostripOpt then line else stripB line)]) }

/-- The fresh empty state of `_parse_host_section`: NOOP with empty
accumulator and empty persisted buffer. -/
def initST : ParserST := ⟨ParserMode.noop, [], [], [], [], []⟩

/-- Fold the state machine over a list of lines. -/
def runLines (ctx : Ctx) (lines : List Line) : ParserST :=
  lines.foldl (step ctx) initST

/-- `cache_age = int(1.5 * 60 * check_interval)` from
`AgentParser._parse_host_section`.  The float product `1.5 * 60 * ci` is
exact (`90.0 * ci`), so `int(...)` equals this natural-number floor. -/
def cacheAgeOf (checkInterval : Nat) : Nat := 3 * 60 * checkInterval / 2

/-- The context built by `AgentParser._parse_host_section` for a parse call:
`cached_at = int(time.time())` and `cache_age = int(1.5 * 60 * check_interval)`
with `check_interval = host_config.check_mk_check_interval`. -/
def mkCtx (hostname : Str) (translate : Str → Str) (cachedAt : Int)
    (checkInterval : Nat) : Ctx :=
  ⟨hostname, translate, cachedAt, Int.ofNat (cacheAgeOf checkInterval)⟩

/-- Modelled from the spec: `HostConfig.check_mk_check_interval`
(cmk.base.config, not under src/) is the host's configured check interval in
minutes; the interval in seconds is sixty times that (the source comment
"Transform to seconds" performs exactly this conversion). -/
def checkIntervalSeconds (checkInterval : Nat) : Nat := 60 * checkInterval

/-- `_parse_host_section`: split the raw bytes on newlines, defensively
right-strip each line, and fold the state machine over the lines. -/
def parseHostSection (ctx : Ctx) (raw : List Nat) : ParserST :=
  runLines ctx ((splitOnByte 10 raw).map rstripNl)

/-! ## Version summarizer (AgentSummarizerDefault) -/

/-- Python exceptions that the version comparison can raise. -/
inductive PyErr where
  | valueError : PyErr
  | typeError : PyErr
  | indexError : PyErr
deriving DecidableEq

/-- `config.AgentTargetVersion`: either a literal version string or an
`("at_least", spec)` tuple whose spec dict optionally holds a `daily_build`
and a `release` entry. -/
inductive ATVersion where
  | ver : Str → ATVersion
  | atLeast : Option Str → Option Str → ATVersion
deriving DecidableEq

/-- Exceptions escaping `_is_expected_agent_version`: a plain Python
exception (re-raised when debug is enabled) or an `MKGeneralException`
recording the agent version, the expectation and the underlying error — the
payload of "Unable to check agent version (Agent: ... Expected: ..., Error: ...)". -/
inductive SummExn where
  | base : PyErr → SummExn
  | mkGeneral : Option Str → ATVersion → PyErr → SummExn
deriving DecidableEq

/-- `int(s)` where failure raises `ValueError`. -/
def pyIntE (s : Str) : Except PyErr Int :=
  match pyInt s with
  | none => Except.error PyErr.valueError
  | some n => Except.ok n

/-- Python `s.replace(".", "")`. -/
def removeDots (s : Str) : Str := s.filter (fun b => b ≠ 46)

/-- Byte is an ASCII digit. -/
def isDigitB (b : Nat) : Bool := 48 ≤ b && b ≤ 57

/-- Modelled from the spec: a daily-build date `YYYY.MM.DD`. -/
def isDailyDate (s : Str) : Bool :=
  match splitOnByte 46 s with
  | [y, m, d] =>
    y.length = 4 && m.length = 2 && d.length = 2 && (y ++ m ++ d).all isDigitB
  | _ => false

/-- Modelled from the spec: `cmk.utils.misc.is_daily_build_version` (not under
src/) — a daily build is either a date `YYYY.MM.DD` or a branch build
`BRANCH-YYYY.MM.DD`. -/
def isDailyBuildVersion (s : Str) : Bool :=
  match splitOnce 45 s with
  | none => isDailyDate s
  | some p => isDailyDate p.2

/-- Modelled from the spec: `cmk.utils.misc.branch_of_daily_build` (not under
src/) — `master` for a plain date build, else the part before the dash. -/
def branchOfDailyBuild (s : Str) : Str :=
  match splitOnce 45 s with
  | none => asciiOf "master"
  | some p => p.1

/-- The `try` body of `AgentSummarizerDefault._is_expected_agent_version`.
`pcv` models `parse_check_mk_version` (cmk.utils.werks, an external
collaborator). -/
def isExpectedBody (pcv : Str → Except PyErr Int) (av : Option Str)
    (ev : ATVersion) : Except PyErr Bool :=
  match av with
  | none => Except.ok false
  | some v =>
    if v = asciiOf "(unknown)" || v = asciiOf "None" then Except.ok false
    else
      match ev with
      | ATVersion.ver s => if s ≠ v then Except.ok false else Except.ok true
      | ATVersion.atLeast db rel =>
        match db, isDailyBuildVersion v with
        | some dbs, true => do
          let expected ← pyIntE (removeDots dbs)
          let agent ←
            if branchOfDailyBuild v = asciiOf "master" then pyIntE (removeDots v)
            else
              match splitOnByte 45 v with
              | _ :: p1 :: _ => pyIntE (removeDots p1)
              | _ => Except.error PyErr.indexError
          if agent < expected then Except.ok false else Except.ok true
        | _, _ =>
          match rel with
          | some rels =>
            if isDailyBuildVersion v then Except.ok false
            else do
              let a ← pcv v
              let b ← pcv rels
              if a < b then Except.ok false else Except.ok true
          | none => Except.ok true

/-- `AgentSummarizerDefault._is_expected_agent_version`: on an exception in
the body, re-raise it when debug is enabled, else raise
`MKGeneralException` describing the comparison failure. -/
def isExpectedAgentVersion (pcv : Str → Except PyErr Int) (debug : Bool)
    (av : Option Str) (ev : ATVersion) : Except SummExn Bool :=
  match isExpectedBody pcv av ev with
  | Except.ok b => Except.ok b
  | Except.error e =>
    Except.error (if debug then SummExn.base e else SummExn.mkGeneral av ev e)

/-- Python `str(x)` on an optional string: `None` renders as "None". -/
def pyStrOpt (v : Option Str) : Str :=
  match v with
  | none => asciiOf "None"
  | some s => s

/-- Python truthiness of `agent_target_version`: `None` and the empty string
are falsy, any `at_least` tuple is truthy. -/
def truthyATV : ATVersion → Bool
  | ATVersion.ver s => !s.isEmpty
  | ATVersion.atLeast _ _ => true

/-- The `expected` display string built by `_sub_result_version` for the
mismatch message. -/
def expectedDisplay : ATVersion → Str
  | ATVersion.ver s => s
  | ATVersion.atLeast db rel =>
    asciiOf "at least" ++
      (match db with
       | some d => asciiOf " build " ++ d
       | none => []) ++
      (match rel with
       | some r => (if db.isSome then asciiOf " or" else []) ++ asciiOf " release " ++ r
       | none => [])

/-- `AgentSummarizerDefault._sub_result_version`.  `markers` models the
external `state_markers` table; `wrongVersionExit` is
`exit_spec.get("wrong_version", 1)`; `agentMinVersion` is the global
`config.agent_min_version` whose comparison against the version string
raises `TypeError` when it is set. -/
def subResultVersion (pcv : Str → Except PyErr Int) (markers : Nat → Str)
    (debug : Bool) (versionInfo : Option Str) (expectedVersion : Option ATVersion)
    (wrongVersionExit : Option Nat) (agentMinVersion : Option Int) :
    Except SummExn (Option (Nat × Str × List Unit)) :=
  let agent_version := pyStrOpt versionInfo
  let minVersionCheck : Except SummExn (Option (Nat × Str × List Unit)) :=
    match agentMinVersion with
    | some m =>
      if m ≠ 0 then Except.error (SummExn.base PyErr.typeError) else Except.ok none
    | none => Except.ok none
  match expectedVersion with
  | none => minVersionCheck
  | some ev =>
    if truthyATV ev && !agent_version.isEmpty then
      match isExpectedAgentVersion pcv debug (some agent_version) ev with
      | Except.error e => Except.error e
      | Except.ok true => minVersionCheck
      | Except.ok false =>
        let status := wrongVersionExit.getD 1
        Except.ok (some (status,
          asciiOf "unexpected agent version " ++ agent_version ++
            asciiOf " (should be " ++ expectedDisplay ev ++ asciiOf ")" ++
            markers status, []))
    else minVersionCheck

/-! ## Only-from summarizer check -/

/-- Lexicographic order on byte strings (Python string comparison). -/
def strLe : Str → Str → Bool
  | [], _ => true
  | _ :: _, [] => false
  | a :: as2, b :: bs => if a < b then true else if b < a then false else strLe as2 bs

/-- Insert into a lexicographically sorted list. -/
def insertLex (x : Str) : List Str → List Str
  | [] => [x]
  | y :: t => if strLe x y then x :: y :: t else y :: insertLex x t

/-- Python `sorted(...)` with the lexicographic string order. -/
def sortLex : List Str → List Str
  | [] => []
  | x :: t => insertLex x (sortLex t)

/-- Python `set(...)`, modelled as a duplicate-free list (the set itself is
unordered; only its membership is observable up to ordering). -/
def pySet (l : List Str) : List Str := l.dedup

/-- Python set equality. -/
def setEq (a b : List Str) : Bool :=
  a.all (fun x => decide (x ∈ b)) && b.all (fun x => decide (x ∈ a))

/-- Python set difference. -/
def setDiff (a b : List Str) : List Str := a.filter (fun x => decide (x ∉ b))

/-- Python `" ".join(...)`. -/
def joinSp (l : List Str) : Str := List.intercalate [32] l

/-- Python `", ".join(...)`. -/
def joinComma (l : List Str) : Str := List.intercalate (asciiOf ", ") l

/-- `AgentSummarizerDefault._sub_result_only_from`.  `normalize` models the
external `normalize_ip_addresses`; `ramExit` is
`exit_spec.get("restricted_address_mismatch", 1)`. -/
def subResultOnlyFrom (normalize : Str → List Str) (markers : Nat → Str)
    (agentOnlyFrom : Option Str) (configOnlyFrom : Option Str)
    (ramExit : Option Nat) : Option (Nat × Str × List Unit) :=
  match agentOnlyFrom with
  | none => none
  | some aof =>
    match configOnlyFrom with
    | none => none
    | some cof =>
      let allowed_nets := pySet (normalize aof)
      let expected_nets := pySet (normalize cof)
      if setEq allowed_nets expected_nets then
        some (0, asciiOf "Allowed IP ranges: " ++ joinSp allowed_nets ++ markers 0, [])
      else
        let exceeding := setDiff allowed_nets expected_nets
        let infotexts :=
          if !exceeding.isEmpty then
            [asciiOf "exceeding: " ++ joinSp (sortLex exceeding)]
          else []
        let missing := setDiff expected_nets allowed_nets
        let infotexts :=
          infotexts ++
            (if !missing.isEmpty then
              [asciiOf "missing: " ++ joinSp (sortLex missing)]
            else [])
        let mismatch_state := ramExit.getD 1
        some (mismatch_state,
          asciiOf "Unexpected allowed IP ranges (" ++ joinComma infotexts ++
            asciiOf ")" ++ markers mismatch_state, [])

/-! ## Example contexts used by the concrete scenarios -/

/-- A context for a receiving host named `me`, no piggyback translation
(the external hook defaults to the identity), `cached_at = 100`,
`cache_age = 90`. -/
def exCtx : Ctx := ⟨asciiOf "me", fun s => s, 100, 90⟩

/-- Same receiving host with `cached_at = 1500` (scenario E4 of the spec). -/
def exCtx4 : Ctx := ⟨asciiOf "me", fun s => s, 1500, 90⟩

/-- The footer lines that close the currently open block, if any:
`<<<>>>` for a host section, `<<<<>>>>` for a piggyback block. -/
def closerOf : ParserMode → List Line
  | ParserMode.noop => []
  | ParserMode.host _ => [[60, 60, 60, 62, 62, 62]]
  | ParserMode.piggy _ => [[60, 60, 60, 60, 62, 62, 62, 62]]

/-! ## Invariant predicates -/

/-- The aliasing invariant of the persisted buffer: every staged entry's
payload cell is the very cell of the live section of the same name. -/
def InvC4 (s : ParserST) : Prop :=
  ∀ n e, (n, e) ∈ s.persisted → alookup n s.sections = some e.2.2

/-- A host name fit to key `piggybacked_raw_data`: sanitized and distinct
from the receiving host. -/
def sanitizedNotSelf (ctx : Ctx) (t : Str) : Prop :=
  t.all isHostNameChar = true ∧ t ≠ ctx.hostname

/-- The piggyback-key invariant: every present key and any current piggyback
target is sanitized and differs from the receiving host. -/
def InvC8 (ctx : Ctx) (s : ParserST) : Prop :=
  (∀ k, k ∈ keys s.piggybacked → sanitizedNotSelf ctx k) ∧
  (∀ t, s.mode = ParserMode.piggy t → sanitizedNotSelf ctx t)

/-! ## Helper lemmas -/

theorem isPrefixOf_append_self (p s : List Nat) :
    List.isPrefixOf p (p ++ s) = true := by
  induction p with
  | nil => simp [List.isPrefixOf]
  | cons a t ih => simp [List.isPrefixOf, ih]

theorem hasSub_append (x p s : List Nat) (hp : p ≠ []) :
    hasSub p (x ++ p ++ s) = true := by
  induction x with
  | nil =>
    match p, hp with
    | a :: t, _ =>
      have h1 := isPrefixOf_append_self (a :: t) s
      simp only [List.nil_append, List.cons_append, hasSub]
      simp only [List.cons_append] at h1
      simp [h1]
  | cons b x ih =>
    simp only [List.cons_append, hasSub, Bool.or_eq_true]
    exact Or.inr (by simpa [List.append_assoc] using ih)

theorem addCachedInfo_idem (l : Line) (a b : Int) :
    addCachedInfo (addCachedInfo l a b) a b = addCachedInfo l a b := by
  by_cases hc :
      (hasSub (asciiOf ":cached(") l || hasSub (asciiOf ":persist(") l) = true
  · unfold addCachedInfo
    rw [if_pos hc, if_pos hc]
  · unfold addCachedInfo
    rw [if_neg hc]
    have hmem : hasSub (asciiOf ":cached(")
        ([60, 60, 60] ++ slice3 l ++ asciiOf ":cached(" ++ intDigits a ++
          [44] ++ intDigits b ++ [41, 62, 62, 62]) = true := by
      have h2 := hasSub_append ([60, 60, 60] ++ slice3 l) (asciiOf ":cached(")
        (intDigits a ++ [44] ++ intDigits b ++ [41, 62, 62, 62]) (by decide)
      simpa [List.append_assoc] using h2
    rw [if_pos (by
      simp only [Bool.or_eq_true]
      exact Or.inl (by simpa [List.append_assoc, List.cons_append] using hmem))]

theorem dropWhile_dropWhile (p : Nat → Bool) (l : List Nat) :
    (l.dropWhile p).dropWhile p = l.dropWhile p := by
  induction l with
  | nil => rfl
  | cons a t ih =>
    by_cases h : p a = true
    · simp [List.dropWhile_cons, h, ih]
    · simp [List.dropWhile_cons, h]

theorem head_false_of_dropWhile_eq (p : Nat → Bool) (a : Nat) (t : List Nat)
    (h : (a :: t).dropWhile p = a :: t) : p a = false := by
  have h2 := List.dropWhile_eq_self_iff.mp h (by simp)
  simpa using h2

theorem dropWhile_decomp (p : Nat → Bool) (l : List Nat) :
    ∃ t, l = t ++ l.dropWhile p := by
  induction l with
  | nil => exact ⟨[], rfl⟩
  | cons a t ih =>
    by_cases h : p a = true
    · obtain ⟨u, hu⟩ := ih
      refine ⟨a :: u, ?_⟩
      rw [List.dropWhile_cons, if_pos h, List.cons_append]
      exact congrArg (a :: ·) hu
    · exact ⟨[], by rw [List.dropWhile_cons, if_neg h]; rfl⟩

theorem rstrip_pres_noLead (p : Nat → Bool) (x : List Nat)
    (h : x.dropWhile p = x) :
    ((x.reverse.dropWhile p).reverse).dropWhile p = (x.reverse.dropWhile p).reverse := by
  obtain ⟨t, ht⟩ := dropWhile_decomp p x.reverse
  have hx : x = (x.reverse.dropWhile p).reverse ++ t.reverse := by
    have h2 := congrArg List.reverse ht
    simpa [List.reverse_append] using h2
  cases hdr : (x.reverse.dropWhile p).reverse with
  | nil => simp
  | cons a u =>
    have hxa : x = a :: (u ++ t.reverse) := by
      rw [hx, hdr, List.cons_append]
    have hpa : p a = false := by
      apply head_false_of_dropWhile_eq p a (u ++ t.reverse)
      rw [← hxa]
      exact h
    rw [List.dropWhile_cons, if_neg (by simp [hpa])]

theorem stripB_idem (l : List Nat) : stripB (stripB l) = stripB l := by
  have h1 : (stripB l).dropWhile isSpaceB = stripB l :=
    rstrip_pres_noLead isSpaceB (l.dropWhile isSpaceB)
      (dropWhile_dropWhile isSpaceB l)
  have h2 : (stripB l).reverse = (l.dropWhile isSpaceB).reverse.dropWhile isSpaceB := by
    unfold stripB
    rw [List.reverse_reverse]
  calc stripB (stripB l)
      = (((stripB l).dropWhile isSpaceB).reverse.dropWhile isSpaceB).reverse := rfl
    _ = ((stripB l).reverse.dropWhile isSpaceB).reverse := by rw [h1]
    _ = (((l.dropWhile isSpaceB).reverse.dropWhile isSpaceB).dropWhile isSpaceB).reverse := by
          rw [h2]
    _ = ((l.dropWhile isSpaceB).reverse.dropWhile isSpaceB).reverse := by
          rw [dropWhile_dropWhile]
    _ = stripB l := rfl

theorem isPiggyFooter_stripB (l : Line) : isPiggyFooter (stripB l) = isPiggyFooter l := by
  unfold isPiggyFooter
  rw [stripB_idem]

theorem isPiggyHeader_stripB (l : Line) : isPiggyHeader (stripB l) = isPiggyHeader l := by
  unfold isPiggyHeader
  rw [stripB_idem, isPiggyFooter_stripB]

theorem isHostFooter_stripB (l : Line) : isHostFooter (stripB l) = isHostFooter l := by
  unfold isHostFooter
  rw [stripB_idem]

theorem isEmpty_false_of_isPrefixOf_cons (a : Nat) (p s : List Nat)
    (h : List.isPrefixOf (a :: p) s = true) : s.isEmpty = false := by
  cases s with
  | nil => simp [List.isPrefixOf] at h
  | cons b t => rfl

theorem hostHeader_facts (l : Line) (h : isHostHeader l = true) :
    (stripB l).isEmpty = false ∧ isPiggyHeader l = false ∧
      isHostFooter l = false ∧ isPiggyFooter l = false := by
  unfold isHostHeader at h
  simp only [Bool.and_eq_true, Bool.not_eq_true'] at h
  obtain ⟨⟨⟨⟨hpre, _⟩, hf⟩, hph⟩, hpf⟩ := h
  refine ⟨isEmpty_false_of_isPrefixOf_cons 60 [60, 60] (stripB l) hpre, ?_, ?_, ?_⟩
  · rw [← isPiggyHeader_stripB]; exact hph
  · rw [← isHostFooter_stripB]; exact hf
  · rw [← isPiggyFooter_stripB]; exact hpf

theorem piggyHeader_nonblank (l : Line) (h : isPiggyHeader l = true) :
    (stripB l).isEmpty = false := by
  unfold isPiggyHeader at h
  simp only [Bool.and_eq_true] at h
  exact isEmpty_false_of_isPrefixOf_cons 60 [60, 60, 60] (stripB l) h.1.1

theorem withModeNoop_eq_self (s : ParserST) (h : s.mode = ParserMode.noop) :
    { s with mode := ParserMode.noop } = s := by
  cases s
  simp only at h
  simp [h]

theorem alookup_append_some {α : Type} (k : Str) (m m2 : List (Str × α)) (v : α)
    (h : alookup k m = some v) : alookup k (m ++ m2) = some v := by
  induction m with
  | nil => simp [alookup] at h
  | cons q t ih =>
    obtain ⟨a, b⟩ := q
    rw [alookup] at h
    rw [List.cons_append, alookup]
    by_cases hak : a = k
    · rw [if_pos hak] at h
      rw [if_pos hak]
      exact h
    · rw [if_neg hak] at h
      rw [if_neg hak]
      exact ih h

theorem alookup_append_none {α : Type} (k : Str) (m m2 : List (Str × α))
    (h : alookup k m = none) : alookup k (m ++ m2) = alookup k m2 := by
  induction m with
  | nil => rfl
  | cons q t ih =>
    obtain ⟨a, b⟩ := q
    rw [alookup] at h
    rw [List.cons_append, alookup]
    by_cases hak : a = k
    · rw [if_pos hak] at h
      exact absurd h (by simp)
    · rw [if_neg hak] at h
      rw [if_neg hak]
      exact ih h

theorem mem_upd {α : Type} (k : Str) (v : α) (m : List (Str × α)) (q : Str × α)
    (hq : q ∈ upd k v m) : q = (k, v) ∨ q ∈ m := by
  induction m with
  | nil => simpa [upd] using hq
  | cons p t ih =>
    obtain ⟨a, b⟩ := p
    by_cases hak : a = k
    · rw [upd, if_pos hak] at hq
      rcases List.mem_cons.mp hq with h1 | h2
      · exact Or.inl h1
      · exact Or.inr (List.mem_cons_of_mem _ h2)
    · rw [upd, if_neg hak] at hq
      rcases List.mem_cons.mp hq with h1 | h2
      · exact Or.inr (h1 ▸ List.mem_cons_self _ _)
      · rcases ih h2 with h3 | h4
        · exact Or.inl h3
        · exact Or.inr (List.mem_cons_of_mem _ h4)

theorem keys_upd {α : Type} (k : Str) (v : α) (m : List (Str × α)) (k2 : Str)
    (h : k2 ∈ keys (upd k v m)) : k2 = k ∨ k2 ∈ keys m := by
  unfold keys at h
  rcases List.mem_map.mp h with ⟨q, hq, hk2⟩
  rcases mem_upd k v m q hq with h1 | h2
  · left; rw [← hk2, h1]
  · right; exact List.mem_map.mpr ⟨q, h2, hk2⟩

theorem keys_appendPB (m : List (Str × List Line)) (t : Str) (v : Line) (k2 : Str)
    (h : k2 ∈ keys (appendPB m t v)) : k2 = t ∨ k2 ∈ keys m := by
  unfold appendPB at h
  cases hl : alookup t m with
  | some ls =>
    rw [hl] at h
    exact keys_upd t (ls ++ [v]) m k2 h
  | none =>
    rw [hl] at h
    unfold keys at h
    rw [List.map_append] at h
    rcases List.mem_append.mp h with h1 | h2
    · exact Or.inr h1
    · left; simpa using h2

theorem step_cases (ctx : Ctx) (s : ParserST) (line : Line) :
    step ctx s line = s ∨
    step ctx s line = { s with mode := ParserMode.noop } ∨
    (∃ t, parsePiggyHeader ctx.translate line = some t ∧ t ≠ ctx.hostname ∧
      step ctx s line = { s with mode := ParserMode.piggy t }) ∨
    (∃ t out, s.mode = ParserMode.piggy t ∧
      step ctx s line = { s with piggybacked := appendPB s.piggybacked t out }) ∨
    (∃ h2, fromHeaderline line = some h2 ∧
      step ctx s line = enterHost ctx.cachedAt s h2) ∨
    (∃ r row, step ctx s line =
      { s with heap := s.heap.set r ((s.heap.getD r []) ++ [row]) }) := by
  unfold step
  repeat' split
  all_goals try exact Or.inl rfl
  all_goals try exact Or.inr (Or.inl rfl)
  all_goals try exact Or.inr (Or.inr (Or.inl ⟨_, by assumption, by assumption, rfl⟩))
  all_goals try exact Or.inr (Or.inr (Or.inr (Or.inl ⟨_, _, by assumption, rfl⟩)))
  all_goals try exact Or.inr (Or.inr (Or.inr (Or.inr (Or.inl ⟨_, by assumption, rfl⟩))))
  all_goals try exact Or.inr (Or.inr (Or.inr (Or.inr (Or.inr ⟨_, _, rfl⟩))))

theorem foldl_inv (P : ParserST → Prop) (ctx : Ctx)
    (hstep : ∀ s l, P s → P (step ctx s l)) :
    ∀ (lines : List Line) (s : ParserST), P s → P (lines.foldl (step ctx) s) := by
  intro lines
  induction lines with
  | nil => intro s hs; exact hs
  | cons l t ih => intro s hs; exact ih (step ctx s l) (hstep s l hs)

theorem runLines_inv (P : ParserST → Prop) (ctx : Ctx)
    (hstep : ∀ s l, P s → P (step ctx s l)) (hinit : P initST)
    (lines : List Line) : P (runLines ctx lines) :=
  foldl_inv P ctx hstep lines initST hinit

/-! ## Claims -/

/-- C5: the piggyback header rewrite is idempotent — for every inner
host-section header line and every `captured_at` / `cache_age` pair, applying
`_add_cached_info` to its own output leaves that output unchanged (the
rewritten line contains `:cached(`, so the second application is the
identity). -/
theorem C5_thm (l : Line) (a b : Int) (_hh : isHostHeader l = true) :
    addCachedInfo (addCachedInfo l a b) a b = addCachedInfo l a b :=
  addCachedInfo_idem l a b

/-- Witness for C5 at the concrete inner header `<<<uptime>>>` with
`captured_at = 1000`, `cache_age = 90`. -/
theorem C5_witness :
    addCachedInfo (addCachedInfo (asciiOf "<<<uptime>>>") 1000 90) 1000 90 =
      addCachedInfo (asciiOf "<<<uptime>>>") 1000 90 :=
  C5_thm (asciiOf "<<<uptime>>>") 1000 90 (by decide)

/-- C2: the `cache_age` passed by the orchestrator to the framing state
machine equals `floor(1.5 × check_interval_seconds)` where
`check_interval_seconds` is the host's configured check interval in seconds
(`60 ×` the configured minutes, see `checkIntervalSeconds`). -/
theorem C2_thm (hostname : Str) (translate : Str → Str) (cachedAt : Int)
    (ci : Nat) :
    (mkCtx hostname translate cachedAt ci).cacheAge =
      ⌊(1.5 : ℚ) * (checkIntervalSeconds ci : ℚ)⌋ := by
  have h1 : (1.5 : ℚ) * (checkIntervalSeconds ci : ℚ) = ((90 * ci : ℕ) : ℚ) := by
    simp only [checkIntervalSeconds]
    push_cast
    ring
  rw [h1, Int.floor_natCast]
  have h2 : 3 * 60 * ci / 2 = 90 * ci := by omega
  simp [mkCtx, cacheAgeOf, h2]

/-- C3 counterexample: with debug disabled, a version comparison that raises
(here: `int("abc")` on a daily-build expectation) makes the summarizer raise
a wrapped `MKGeneralException` — it does not yield a sub-result carrying the
`wrong_version` exit status, contrary to the claim. -/
theorem C3_counterexample :
    subResultVersion (fun _ => Except.error PyErr.valueError) (fun _ => []) false
        (some (asciiOf "2014.06.01"))
        (some (ATVersion.atLeast (some (asciiOf "abc")) none)) (some 1) none =
      Except.error (SummExn.mkGeneral (some (asciiOf "2014.06.01"))
        (ATVersion.atLeast (some (asciiOf "abc")) none) PyErr.valueError) := by
  rfl

/-- C3 (amended): if an exception is raised while comparing the observed and
expected agent versions, the summarizer does not yield a sub-result — when
debug is disabled it wraps the exception as an `MKGeneralException`
describing the comparison failure and raises it to its caller, and when
debug is enabled the original exception is re-raised. -/
theorem C3_thm (pcv : Str → Except PyErr Int) (markers : Nat → Str)
    (debug : Bool) (versionInfo : Option Str) (ev : ATVersion)
    (wv : Option Nat) (amv : Option Int) (e : PyErr)
    (htr : (truthyATV ev && !(pyStrOpt versionInfo).isEmpty) = true)
    (herr : isExpectedBody pcv (some (pyStrOpt versionInfo)) ev = Except.error e) :
    subResultVersion pcv markers debug versionInfo (some ev) wv amv =
      Except.error (if debug then SummExn.base e
        else SummExn.mkGeneral (some (pyStrOpt versionInfo)) ev e) := by
  simp only [subResultVersion, isExpectedAgentVersion, htr, herr, if_true]

/-- Witness for C3 (amended) with debug enabled at a concrete raising
comparison. -/
theorem C3_witness :
    subResultVersion (fun _ => Except.error PyErr.valueError) (fun _ => []) true
        (some (asciiOf "2015.01.02"))
        (some (ATVersion.atLeast (some (asciiOf "xy")) none)) none none =
      Except.error (SummExn.base PyErr.valueError) := by
  have h := C3_thm (fun _ => Except.error PyErr.valueError) (fun _ => []) true
    (some (asciiOf "2015.01.02")) (ATVersion.atLeast (some (asciiOf "xy")) none)
    none none PyErr.valueError (by decide) (by rfl)
  simpa using h


theorem step_host_footer (ctx : Ctx) (s : ParserST) (h : SectionHeader)
    (hm : s.mode = ParserMode.host h) :
    step ctx s [60, 60, 60, 62, 62, 62] = { s with mode := ParserMode.noop } := by
  have h1 : (stripB [60, 60, 60, 62, 62, 62]).isEmpty = false := by decide
  have h2 : isPiggyHeader [60, 60, 60, 62, 62, 62] = false := by decide
  have h3 : isHostFooter [60, 60, 60, 62, 62, 62] = true := by decide
  unfold step
  rw [hm, h1, h2, h3]
  simp

theorem step_piggy_footer (ctx : Ctx) (s : ParserST) (t : Str)
    (hm : s.mode = ParserMode.piggy t) :
    step ctx s [60, 60, 60, 60, 62, 62, 62, 62] = { s with mode := ParserMode.noop } := by
  have h1 : (stripB [60, 60, 60, 60, 62, 62, 62, 62]).isEmpty = false := by decide
  have h2 : isPiggyFooter [60, 60, 60, 60, 62, 62, 62, 62] = true := by decide
  unfold step
  rw [hm, h1, h2]
  simp

/-- C1 counterexample: with the receiving host named `me`, the stream
`<<<sec>>>`, `<<<<me>>>>`, `x` leaves the machine in the HostSection state
after the self-targeted piggyback header (not in NOOP), and the following
content line `x` is appended to the still-open section `sec` — the claimed
transition to NOOP does not happen. -/
theorem C1_counterexample :
    (runLines exCtx [asciiOf "<<<sec>>>", asciiOf "<<<<me>>>>"]).mode =
        ParserMode.host ⟨asciiOf "sec", []⟩ ∧
      (runLines exCtx [asciiOf "<<<sec>>>", asciiOf "<<<<me>>>>", asciiOf "x"]).sections =
        [(asciiOf "sec", 0)] ∧
      (runLines exCtx [asciiOf "<<<sec>>>", asciiOf "<<<<me>>>>", asciiOf "x"]).heap =
        [[[asciiOf "x"]]] :=
  ⟨rfl, rfl, rfl⟩

/-- C1 (amended): whenever the framing state machine is in the HostSection
state and reads a piggyback header whose translated, sanitized target host
name equals the receiving host's own name, it stays in the very same
HostSection state (the line is ignored), so following content lines keep
being appended to the open host section. -/
theorem C1_thm (ctx : Ctx) (s : ParserST) (h : SectionHeader) (line : Line)
    (hm : s.mode = ParserMode.host h) (hph : isPiggyHeader line = true)
    (hself : parsePiggyHeader ctx.translate line = some ctx.hostname) :
    step ctx s line = s := by
  unfold step
  rw [hm, piggyHeader_nonblank line hph, hph, hself]
  simp

/-- Witness for C1 (amended): a concrete HostSection state reading the
self-targeted piggyback header `<<<<me>>>>` is left unchanged. -/
theorem C1_witness :
    step exCtx ⟨ParserMode.host ⟨asciiOf "sec", []⟩, [(asciiOf "sec", 0)], [[]], [], [], []⟩
        (asciiOf "<<<<me>>>>") =
      ⟨ParserMode.host ⟨asciiOf "sec", []⟩, [(asciiOf "sec", 0)], [[]], [], [], []⟩ :=
  C1_thm exCtx _ ⟨asciiOf "sec", []⟩ (asciiOf "<<<<me>>>>") rfl (by decide) rfl

/-- C6: footers are optional — a stream that ends while a host-section or
piggyback block is open produces the same sections mapping (name-to-cell
table and payload heap) as the same stream extended with the footer closing
that block. -/
theorem C6_thm (ctx : Ctx) (lines : List Line)
    (hopen : (runLines ctx lines).mode ≠ ParserMode.noop) :
    (runLines ctx (lines ++ closerOf (runLines ctx lines).mode)).sections =
        (runLines ctx lines).sections ∧
      (runLines ctx (lines ++ closerOf (runLines ctx lines).mode)).heap =
        (runLines ctx lines).heap := by
  have hfold : runLines ctx (lines ++ closerOf (runLines ctx lines).mode) =
      (closerOf (runLines ctx lines).mode).foldl (step ctx) (runLines ctx lines) := by
    unfold runLines
    rw [List.foldl_append]
  rw [hfold]
  cases hm : (runLines ctx lines).mode with
  | noop => exact absurd hm hopen
  | host h =>
    rw [closerOf, List.foldl_cons, List.foldl_nil,
      step_host_footer ctx (runLines ctx lines) h hm]
    exact ⟨rfl, rfl⟩
  | piggy t =>
    rw [closerOf, List.foldl_cons, List.foldl_nil,
      step_piggy_footer ctx (runLines ctx lines) t hm]
    exact ⟨rfl, rfl⟩

/-- Witness for C6 at a stream ending inside an open host section. -/
theorem C6_witness :
    (runLines exCtx ([asciiOf "<<<a>>>"] ++
          closerOf (runLines exCtx [asciiOf "<<<a>>>"]).mode)).sections =
        (runLines exCtx [asciiOf "<<<a>>>"]).sections ∧
      (runLines exCtx ([asciiOf "<<<a>>>"] ++
          closerOf (runLines exCtx [asciiOf "<<<a>>>"]).mode)).heap =
        (runLines exCtx [asciiOf "<<<a>>>"]).heap :=
  C6_thm exCtx [asciiOf "<<<a>>>"] (by decide)

theorem fromHeaderline_none_of_badOptions (line : Line)
    (hopt : parseOptions ((splitOnByte 58 (slice3 line)).drop 1) = none) :
    fromHeaderline line = none := by
  unfold fromHeaderline
  split
  · cases hsp : splitOnByte 58 (slice3 line) with
    | nil => rfl
    | cons name toks =>
      rw [hsp, List.drop_succ_cons, List.drop_zero] at hopt
      cases hv : validSectionName name with
      | false => simp [hv]
      | true => simp [hv, hopt]
  · rfl

theorem hostHeader_of_fromHeaderline (line : Line) (h2 : SectionHeader)
    (h : fromHeaderline line = some h2) : isHostHeader line = true := by
  cases hh : isHostHeader line
  · unfold fromHeaderline at h
    rw [hh] at h
    simp at h
  · rfl

/-- C7: a header line carrying an option token with an opening parenthesis
whose value does not end in a closing parenthesis is rejected — the NOOP
parser discards the line and keeps the whole state unchanged — and the
subsequent well-formed sections parse normally, as in scenario E5:
`<<<garbage:broken(>>>`, `<<<ok>>>`, `x` yields exactly `sections =
.ok ↦ [[x]].` with no entry for `garbage`. -/
theorem C7_thm :
    (∀ (ctx : Ctx) (s : ParserST) (line : Line), s.mode = ParserMode.noop →
        isHostHeader line = true →
        parseOptions ((splitOnByte 58 (slice3 line)).drop 1) = none →
        step ctx s line = s) ∧
      runLines exCtx [asciiOf "<<<garbage:broken(>>>", asciiOf "<<<ok>>>", asciiOf "x"] =
        ⟨ParserMode.host ⟨asciiOf "ok", []⟩, [(asciiOf "ok", 0)], [[[asciiOf "x"]]],
          [], [], []⟩ := by
  constructor
  · intro ctx s line hm hh hopt
    obtain ⟨hnb, hph, hhf, hpf⟩ := hostHeader_facts line hh
    have hfh := fromHeaderline_none_of_badOptions line hopt
    unfold step
    rw [hm, hnb, hph, hh, hfh]
    simpa using withModeNoop_eq_self s hm
  · rfl

/-- Witness for C7: the malformed header `<<<garbage:broken(>>>` read in the
initial NOOP state leaves the state unchanged. -/
theorem C7_witness :
    step exCtx initST (asciiOf "<<<garbage:broken(>>>") = initST :=
  C7_thm.1 exCtx initST (asciiOf "<<<garbage:broken(>>>") rfl (by decide) rfl

theorem heapRef_lookup_self (s : ParserST) (name : Str) :
    alookup name (heapRef s name).1.sections = some (heapRef s name).2 := by
  unfold heapRef
  split
  next r heq => exact heq
  next heq =>
    simp only
    rw [alookup_append_none name s.sections _ heq]
    simp [alookup]

theorem heapRef_lookup_mono (s : ParserST) (name n : Str) (r : Nat)
    (h : alookup n s.sections = some r) :
    alookup n (heapRef s name).1.sections = some r := by
  unfold heapRef
  split
  · exact h
  · exact alookup_append_some n s.sections _ r h

theorem heapRef_fields (s : ParserST) (name : Str) :
    (heapRef s name).1.piggybacked = s.piggybacked ∧
    (heapRef s name).1.persisted = s.persisted ∧
    (heapRef s name).1.mode = s.mode ∧
    (heapRef s name).1.cacheInfo = s.cacheInfo := by
  unfold heapRef
  split <;> exact ⟨rfl, rfl, rfl, rfl⟩

theorem enterHostCore_shape (c : Int) (s : ParserST) (h : SectionHeader) :
    (enterHostCore c s h).1.sections = (heapRef s h.name).1.sections ∧
    (enterHostCore c s h).1.piggybacked = (heapRef s h.name).1.piggybacked ∧
    (enterHostCore c s h).1.heap = (heapRef s h.name).1.heap ∧
    ((enterHostCore c s h).1.persisted = (heapRef s h.name).1.persisted ∨
      ∃ u, (enterHostCore c s h).1.persisted =
        upd h.name (c, u, (heapRef s h.name).2) (heapRef s h.name).1.persisted) := by
  unfold enterHostCore cachedStage
  repeat' split
  all_goals refine ⟨rfl, rfl, rfl, ?_⟩
  all_goals try exact Or.inl rfl
  all_goals exact Or.inr ⟨_, rfl⟩

theorem enterHost_fields (c : Int) (s : ParserST) (h : SectionHeader) :
    (enterHost c s h).sections = (enterHostCore c s h).1.sections ∧
    (enterHost c s h).piggybacked = (enterHostCore c s h).1.piggybacked ∧
    (enterHost c s h).persisted = (enterHostCore c s h).1.persisted ∧
    (enterHost c s h).heap = (enterHostCore c s h).1.heap ∧
    ((enterHost c s h).mode = ParserMode.host h ∨
      (enterHost c s h).mode = ParserMode.noop) := by
  unfold enterHost
  split
  next s1 heq => rw [heq]; exact ⟨rfl, rfl, rfl, rfl, Or.inl rfl⟩
  next s1 heq => rw [heq]; exact ⟨rfl, rfl, rfl, rfl, Or.inr rfl⟩

theorem enterHost_lookup (c : Int) (s : ParserST) (h : SectionHeader) :
    ∃ r, alookup h.name (enterHost c s h).sections = some r := by
  refine ⟨(heapRef s h.name).2, ?_⟩
  rw [(enterHost_fields c s h).1, (enterHostCore_shape c s h).1]
  exact heapRef_lookup_self s h.name

/-- C10 (implicit): a host-section header that passes framing recognition and
name/option tokenization always creates the key `sections[name]` before any
option value is interpreted, so the name is a key of the resulting sections
mapping even when a later stage of handling the same header raises; in
particular `<<<foo:persist(xyz)>>>` leaves `sections = .foo ↦ [].` (an empty
payload at cell 0), no cache info, no persisted entry, and a parser demoted
to NOOP. -/
theorem C10_thm :
    (∀ (ctx : Ctx) (s : ParserST) (line : Line) (h2 : SectionHeader),
        (s.mode = ParserMode.noop ∨ ∃ h0, s.mode = ParserMode.host h0) →
        fromHeaderline line = some h2 →
        ∃ r, alookup h2.name (step ctx s line).sections = some r) ∧
      runLines exCtx [asciiOf "<<<foo:persist(xyz)>>>"] =
        ⟨ParserMode.noop, [(asciiOf "foo", 0)], [[]], [], [], []⟩ := by
  constructor
  · intro ctx s line h2 hmode hfr
    have hh := hostHeader_of_fromHeaderline line h2 hfr
    obtain ⟨hnb, hph, hhf, hpf⟩ := hostHeader_facts line hh
    rcases hmode with hm | ⟨h0, hm⟩
    · unfold step
      rw [hm, hnb, hph, hh, hfr]
      simpa using enterHost_lookup ctx.cachedAt s h2
    · unfold step
      rw [hm, hnb, hph, hhf, hh, hfr]
      simpa using enterHost_lookup ctx.cachedAt s h2
  · rfl

/-- Witness for C10: the header `<<<foo>>>` read from the initial NOOP state
creates the key `foo`. -/
theorem C10_witness :
    ∃ r, alookup (asciiOf "foo")
        (step exCtx initST (asciiOf "<<<foo>>>")).sections = some r :=
  C10_thm.1 exCtx initST (asciiOf "<<<foo>>>") ⟨asciiOf "foo", []⟩
    (Or.inl rfl) rfl


theorem enterHost_invC4 (c : Int) (s : ParserST) (h : SectionHeader)
    (hs : InvC4 s) : InvC4 (enterHost c s h) := by
  intro n e hmem
  obtain ⟨hsec, -, hpers, -, -⟩ := enterHost_fields c s h
  obtain ⟨hsec2, -, -, hpers2⟩ := enterHostCore_shape c s h
  rw [hsec, hsec2]
  rw [hpers] at hmem
  rcases hpers2 with hp | ⟨u, hp⟩
  · rw [hp, (heapRef_fields s h.name).2.1] at hmem
    exact heapRef_lookup_mono s h.name n e.2.2 (hs n e hmem)
  · rw [hp] at hmem
    rcases mem_upd h.name (c, u, (heapRef s h.name).2) _ (n, e) hmem with h1 | h2
    · rw [Prod.mk.injEq] at h1
      obtain ⟨rfl, rfl⟩ := h1
      exact heapRef_lookup_self s h.name
    · rw [(heapRef_fields s h.name).2.1] at h2
      exact heapRef_lookup_mono s h.name n e.2.2 (hs n e h2)

theorem stepInvC4 (ctx : Ctx) : ∀ s l, InvC4 s → InvC4 (step ctx s l) := by
  intro s l hs
  rcases step_cases ctx s l with h1 | h2 | ⟨t, hpp, hne, h3⟩ | ⟨t, out, hmode, h4⟩ |
    ⟨h2b, hfr, h5⟩ | ⟨r, row, h6⟩
  · rw [h1]; exact hs
  · rw [h2]; exact fun n e hm => hs n e hm
  · rw [h3]; exact fun n e hm => hs n e hm
  · rw [h4]; exact fun n e hm => hs n e hm
  · rw [h5]; exact enterHost_invC4 ctx.cachedAt s h2b hs
  · rw [h6]; exact fun n e hm => hs n e hm

/-- C4: a `persist(U)` header at capture time `T` stages a persisted entry
whose payload aliases the live section payload — in the heap model, the
entry stores the very cell index that `sections[name]` holds, for every
input stream — and sets `cache_info[name] = (T, U − T)`; concretely, E4:
`<<<foo:persist(2000)>>>` then `a b` at `T = 1500` yields persisted
`foo ↦ (1500, 2000, cell 0)` with cell 0 holding `[[a, b]]` (the row
appended after staging is reflected), and cache info `foo ↦ (1500, 500)`. -/
theorem C4_thm :
    (∀ (ctx : Ctx) (lines : List Line) (n : Str) (e : Int × Int × Nat),
        (n, e) ∈ (runLines ctx lines).persisted →
        alookup n (runLines ctx lines).sections = some e.2.2) ∧
      runLines exCtx4 [asciiOf "<<<foo:persist(2000)>>>", asciiOf "a b"] =
        ⟨ParserMode.host ⟨asciiOf "foo", [(asciiOf "persist", asciiOf "2000")]⟩,
          [(asciiOf "foo", 0)], [[[asciiOf "a", asciiOf "b"]]], [],
          [(asciiOf "foo", (1500, 500))], [(asciiOf "foo", (1500, 2000, 0))]⟩ := by
  constructor
  · intro ctx lines n e hmem
    refine runLines_inv InvC4 ctx (stepInvC4 ctx) ?_ lines n e hmem
    intro n2 e2 hm2
    exact absurd hm2 (List.not_mem_nil _)
  · rfl

/-- Witness for C4: the aliasing invariant applied to the E4 stream — the
persisted entry for `foo` names the same cell as the live section. -/
theorem C4_witness :
    alookup (asciiOf "foo")
        (runLines exCtx4 [asciiOf "<<<foo:persist(2000)>>>", asciiOf "a b"]).sections =
      some 0 :=
  C4_thm.1 exCtx4 [asciiOf "<<<foo:persist(2000)>>>", asciiOf "a b"]
    (asciiOf "foo") (1500, 2000, 0) (by decide)

theorem sanitizeHost_all (s : Str) : (sanitizeHost s).all isHostNameChar = true := by
  induction s with
  | nil => rfl
  | cons a t ih =>
    unfold sanitizeHost at ih ⊢
    rw [List.map_cons, List.all_cons, ih, Bool.and_true]
    by_cases h : isHostNameChar a = true
    · rw [if_pos h]; exact h
    · rw [if_neg h]; decide

theorem parsePiggyHeader_sanitized (tr : Str → Str) (l : Line) (t : Str)
    (h : parsePiggyHeader tr l = some t) : t.all isHostNameChar = true := by
  simp only [parsePiggyHeader] at h
  split at h
  · exact absurd h (by simp)
  · have ht : t = sanitizeHost (tr (slice4 (stripB l))) := by
      injection h with h2
      exact h2.symm
    rw [ht]
    exact sanitizeHost_all _

theorem stepInvC8 (ctx : Ctx) : ∀ s l, InvC8 ctx s → InvC8 ctx (step ctx s l) := by
  intro s l hs
  rcases step_cases ctx s l with h1 | h2 | ⟨t, hpp, hne, h3⟩ | ⟨t, out, hmode, h4⟩ |
    ⟨h2b, hfr, h5⟩ | ⟨r, row, h6⟩
  · rw [h1]; exact hs
  · rw [h2]
    refine ⟨hs.1, ?_⟩
    intro t2 ht2
    exact absurd ht2 (by simp)
  · rw [h3]
    refine ⟨hs.1, ?_⟩
    intro t2 ht2
    have ht : t = t2 := by simpa using ht2
    rw [← ht]
    exact ⟨parsePiggyHeader_sanitized ctx.translate l t hpp, hne⟩
  · rw [h4]
    refine ⟨?_, fun t2 ht2 => hs.2 t2 ht2⟩
    intro k hk
    rcases keys_appendPB s.piggybacked t out k hk with h1 | h2
    · rw [h1]; exact hs.2 t hmode
    · exact hs.1 k h2
  · rw [h5]
    obtain ⟨-, hpb, -, -, hmode5⟩ := enterHost_fields ctx.cachedAt s h2b
    refine ⟨?_, ?_⟩
    · intro k hk
      rw [hpb, (enterHostCore_shape ctx.cachedAt s h2b).2.1,
        (heapRef_fields s h2b.name).1] at hk
      exact hs.1 k hk
    · intro t2 ht2
      rcases hmode5 with hm | hm <;> rw [hm] at ht2 <;> exact absurd ht2 (by simp)
  · rw [h6]; exact hs

/-- C8: every key of the resulting `piggybacked_raw_data` consists only of
allowed host-name characters (sanitization replaces everything else by an
underscore at header-parse time), and no key equals the receiving host's own
name — a self-targeted piggyback block contributes nothing. -/
theorem C8_thm (ctx : Ctx) (lines : List Line) (k : Str)
    (hk : k ∈ keys (runLines ctx lines).piggybacked) :
    k.all isHostNameChar = true ∧ k ≠ ctx.hostname := by
  refine (runLines_inv (InvC8 ctx) ctx (stepInvC8 ctx) ?_ lines).1 k hk
  constructor
  · intro k2 hk2
    exact absurd hk2 (List.not_mem_nil _)
  · intro t2 ht2
    exact absurd ht2 (by simp [initST])

/-- Witness for C8 on a stream with one piggybacked host. -/
theorem C8_witness :
    (asciiOf "web01").all isHostNameChar = true ∧ asciiOf "web01" ≠ exCtx.hostname :=
  C8_thm exCtx [asciiOf "<<<<web01>>>>", asciiOf "123"] (asciiOf "web01") (by decide)


theorem strLe_cons_iff (x y : Nat) (as bs : Str) :
    strLe (x :: as) (y :: bs) = true ↔ x < y ∨ (x = y ∧ strLe as bs = true) := by
  rw [strLe]
  by_cases h1 : x < y
  · simp [h1]
  · by_cases h2 : y < x
    · simp only [if_neg h1, if_pos h2]
      constructor
      · intro hf
        exact absurd hf (by simp)
      · rintro (h3 | ⟨rfl, -⟩)
        · omega
        · omega
    · have hxy : x = y := by omega
      simp [h1, h2, hxy]

theorem strLe_total (a b : Str) : strLe a b = true ∨ strLe b a = true := by
  induction a generalizing b with
  | nil => exact Or.inl rfl
  | cons x as ih =>
    cases b with
    | nil => exact Or.inr rfl
    | cons y bs =>
      rcases Nat.lt_trichotomy x y with h | h | h
      · left
        rw [strLe_cons_iff]
        exact Or.inl h
      · subst h
        rcases ih bs with h2 | h2
        · left
          rw [strLe_cons_iff]
          exact Or.inr ⟨rfl, h2⟩
        · right
          rw [strLe_cons_iff]
          exact Or.inr ⟨rfl, h2⟩
      · right
        rw [strLe_cons_iff]
        exact Or.inl h

theorem strLe_trans (a : Str) : ∀ b c, strLe a b = true → strLe b c = true →
    strLe a c = true := by
  induction a with
  | nil => intro b c h1 h2; rfl
  | cons x as ih =>
    intro b c h1 h2
    cases b with
    | nil => simp [strLe] at h1
    | cons y bs =>
      cases c with
      | nil => simp [strLe] at h2
      | cons z cs =>
        rw [strLe_cons_iff] at h1 h2 ⊢
        rcases h1 with h1 | ⟨rfl, h1⟩
        · rcases h2 with h2 | ⟨rfl, h2⟩
          · exact Or.inl (Nat.lt_trans h1 h2)
          · exact Or.inl h1
        · rcases h2 with h2 | ⟨rfl, h2b⟩
          · exact Or.inl h2
          · exact Or.inr ⟨rfl, ih bs cs h1 h2b⟩

theorem insertLex_perm (x : Str) (l : List Str) : (insertLex x l).Perm (x :: l) := by
  induction l with
  | nil => exact List.Perm.refl _
  | cons y t ih =>
    rw [insertLex]
    by_cases h : strLe x y = true
    · rw [if_pos h]
    · rw [if_neg h]
      exact List.Perm.trans (List.Perm.cons y ih) (List.Perm.swap x y t)

theorem mem_insertLex (x z : Str) (l : List Str) (h : z ∈ insertLex x l) :
    z = x ∨ z ∈ l := by
  have h2 := (insertLex_perm x l).mem_iff.mp h
  simpa using h2

theorem pairwise_insertLex (x : Str) (l : List Str)
    (hl : List.Pairwise (fun a b => strLe a b = true) l) :
    List.Pairwise (fun a b => strLe a b = true) (insertLex x l) := by
  induction l with
  | nil => simp [insertLex]
  | cons y t ih =>
    rw [insertLex]
    by_cases h : strLe x y = true
    · rw [if_pos h]
      refine List.Pairwise.cons ?_ hl
      intro z hz
      rcases List.mem_cons.mp hz with rfl | hz2
      · exact h
      · exact strLe_trans x y z h (List.rel_of_pairwise_cons hl hz2)
    · rw [if_neg h]
      have hyx : strLe y x = true := by
        rcases strLe_total x y with h2 | h2
        · exact absurd h2 h
        · exact h2
      refine List.Pairwise.cons ?_ (ih hl.of_cons)
      intro z hz
      rcases mem_insertLex x z t hz with rfl | hz2
      · exact hyx
      · exact List.rel_of_pairwise_cons hl hz2

theorem sortLex_perm (l : List Str) : (sortLex l).Perm l := by
  induction l with
  | nil => exact List.Perm.refl _
  | cons x t ih =>
    rw [sortLex]
    exact List.Perm.trans (insertLex_perm x (sortLex t)) (List.Perm.cons x ih)

theorem sortLex_pairwise (l : List Str) :
    List.Pairwise (fun a b => strLe a b = true) (sortLex l) := by
  induction l with
  | nil => exact List.Pairwise.nil
  | cons x t ih => exact pairwise_insertLex x (sortLex t) ih

/-- C9: the only-from sub-check.  When the set of normalized ranges reported
by the agent equals the configured expectation, the sub-result has status 0
and a line listing the allowed ranges; otherwise the status is the
configured `restricted_address_mismatch` exit status (default 1) and the
message is `Unexpected allowed IP ranges (...)` in which the exceeding and
the missing ranges are each listed sorted (`sortLex` output is a
lexicographically ordered permutation of each difference). -/
theorem C9_thm (normalize : Str → List Str) (markers : Nat → Str)
    (aof cof : Str) (ram : Option Nat) :
    (setEq (pySet (normalize aof)) (pySet (normalize cof)) = true →
      subResultOnlyFrom normalize markers (some aof) (some cof) ram =
        some (0, asciiOf "Allowed IP ranges: " ++ joinSp (pySet (normalize aof)) ++
          markers 0, [])) ∧
    (setEq (pySet (normalize aof)) (pySet (normalize cof)) = false →
      (subResultOnlyFrom normalize markers (some aof) (some cof) ram =
        some (ram.getD 1,
          asciiOf "Unexpected allowed IP ranges (" ++
            joinComma
              ((if !(setDiff (pySet (normalize aof)) (pySet (normalize cof))).isEmpty then
                 [asciiOf "exceeding: " ++
                   joinSp (sortLex (setDiff (pySet (normalize aof)) (pySet (normalize cof))))]
               else []) ++
               (if !(setDiff (pySet (normalize cof)) (pySet (normalize aof))).isEmpty then
                 [asciiOf "missing: " ++
                   joinSp (sortLex (setDiff (pySet (normalize cof)) (pySet (normalize aof))))]
               else [])) ++
            asciiOf ")" ++ markers (ram.getD 1), [])) ∧
      (sortLex (setDiff (pySet (normalize aof)) (pySet (normalize cof)))).Perm
        (setDiff (pySet (normalize aof)) (pySet (normalize cof))) ∧
      List.Pairwise (fun a b => strLe a b = true)
        (sortLex (setDiff (pySet (normalize aof)) (pySet (normalize cof)))) ∧
      (sortLex (setDiff (pySet (normalize cof)) (pySet (normalize aof)))).Perm
        (setDiff (pySet (normalize cof)) (pySet (normalize aof))) ∧
      List.Pairwise (fun a b => strLe a b = true)
        (sortLex (setDiff (pySet (normalize cof)) (pySet (normalize aof))))) := by
  constructor
  · intro he
    simp only [subResultOnlyFrom, he, if_true]
  · intro hne
    refine ⟨?_, sortLex_perm _, sortLex_pairwise _, sortLex_perm _, sortLex_pairwise _⟩
    simp only [subResultOnlyFrom, hne, Bool.false_eq_true, if_false]

/-- Witness for C9 on both branches, with identity normalization and empty
state markers. -/
theorem C9_witness :
    subResultOnlyFrom (fun s => [s]) (fun _ => []) (some (asciiOf "a"))
        (some (asciiOf "a")) none =
      some (0, asciiOf "Allowed IP ranges: a", []) ∧
    subResultOnlyFrom (fun s => [s]) (fun _ => []) (some (asciiOf "a"))
        (some (asciiOf "b")) none =
      some (1, asciiOf "Unexpected allowed IP ranges (exceeding: a, missing: b)", []) := by
  have h1 := (C9_thm (fun s => [s]) (fun _ => []) (asciiOf "a") (asciiOf "a") none).1
    (by decide)
  have h2 := ((C9_thm (fun s => [s]) (fun _ => []) (asciiOf "a") (asciiOf "b") none).2
    (by decide)).1
  constructor
  · rw [h1]
    rfl
  · rw [h2]
    rfl

end Checkmk
